import Mathlib

/-!
Verification of the MacHRIR single-producer/single-consumer circular byte
buffer (src/MacHRIR/cpp/CircularBuffer.cpp), as a shallow embedding.

The C++ state consists of a byte array `buffer_` of `capacity_` bytes and two
`size_t` cursors `writeIndex_` / `readIndex_`.  We model bytes as `Nat`
(memcpy is value-agnostic), the storage as a `List Nat` whose length is the
capacity, and `size_t` arithmetic as `Nat` arithmetic modulo `2 ^ 64`
(`sub64` below), so that unsigned wraparound — which the source relies on
being well-defined — is captured faithfully.
-/

namespace MacHRIR

/-- Width of the machine word: `size_t` arithmetic is modulo `2 ^ 64`. -/
def W : Nat := 2 ^ 64

/-- `size_t` subtraction `a - b`: wraps modulo `2 ^ 64`.  Arguments are
assumed `< 2 ^ 64`, as every `size_t` value is. -/
def sub64 (a b : Nat) : Nat := (W + a - b) % W

/-- State of `machrir::CircularBuffer`: the storage region, its size, and the
two cursors (the `std::atomic<size_t>` members `writeIndex_`/`readIndex_`).
Since every claim we settle is about sequential (quiescent) executions, the
atomic loads/stores are modelled as plain field reads/updates. -/
structure CircularBuffer where
  capacity : Nat
  buffer : List Nat
  writeIndex : Nat
  readIndex : Nat
deriving DecidableEq, Repr

/-- `CircularBuffer::CircularBuffer(size_t capacity)`: cursors start at 0 and
the storage is zero-initialised (`std::memset(buffer_, 0, capacity)`). -/
def mkBuffer (capacity : Nat) : CircularBuffer :=
  { capacity := capacity
    buffer := List.replicate capacity 0
    writeIndex := 0
    readIndex := 0 }

/-- `CircularBuffer::availableRead()`:
`if (writeIdx >= readIdx) writeIdx - readIdx else capacity_ - (readIdx - writeIdx)`,
all in `size_t` arithmetic. -/
def CircularBuffer.availableRead (cb : CircularBuffer) : Nat :=
  if cb.readIndex ≤ cb.writeIndex then
    sub64 cb.writeIndex cb.readIndex
  else
    sub64 cb.capacity (sub64 cb.readIndex cb.writeIndex)

/-- `CircularBuffer::availableWrite()`:
`if (writeIdx >= readIdx) capacity_ - (writeIdx - readIdx) - 1 else readIdx - writeIdx - 1`,
all in `size_t` arithmetic (note the underflow when `capacity_ = 0`). -/
def CircularBuffer.availableWrite (cb : CircularBuffer) : Nat :=
  if cb.readIndex ≤ cb.writeIndex then
    sub64 (sub64 cb.capacity (sub64 cb.writeIndex cb.readIndex)) 1
  else
    sub64 (sub64 cb.readIndex cb.writeIndex) 1

/-- `std::memcpy(buf + pos, src, src.length)` on list-modelled storage:
writes the bytes of `src` at consecutive positions starting at `pos`.
(`List.set` out of range is a no-op, matching the fact that an out-of-bounds
memcpy has no defined in-bounds effect to model; in every state we reason
about, all positions are in bounds.) -/
def copyBytes (buf : List Nat) (pos : Nat) (src : List Nat) : List Nat :=
  match src with
  | [] => buf
  | b :: rest => copyBytes (buf.set pos b) (pos + 1) rest

/-- `CircularBuffer::write(const void *data, size_t size)`.  The `data`
pointer together with `size` is modelled as the list `data` (so
`size = data.length`).  Returns the pair (bytes written, new state). -/
def CircularBuffer.write (cb : CircularBuffer) (data : List Nat) : Nat × CircularBuffer :=
  let available := cb.availableWrite
  let toWrite := min data.length available
  if toWrite = 0 then (0, cb)
  else
    let writeIdx := cb.writeIndex
    let firstChunk := min toWrite (sub64 cb.capacity writeIdx)
    let buf1 := copyBytes cb.buffer writeIdx (data.take firstChunk)
    let buf2 :=
      if firstChunk < toWrite then
        copyBytes buf1 0 ((data.drop firstChunk).take (toWrite - firstChunk))
      else buf1
    (toWrite,
      { cb with
          buffer := buf2
          writeIndex := ((writeIdx + toWrite) % W) % cb.capacity })

/-- `CircularBuffer::read(void *data, size_t size)`.  Returns
(bytes read, the bytes delivered into `data`, new state). -/
def CircularBuffer.read (cb : CircularBuffer) (size : Nat) : Nat × List Nat × CircularBuffer :=
  let available := cb.availableRead
  let toRead := min size available
  if toRead = 0 then (0, [], cb)
  else
    let readIdx := cb.readIndex
    let firstChunk := min toRead (sub64 cb.capacity readIdx)
    let out1 := (cb.buffer.drop readIdx).take firstChunk
    let out2 :=
      if firstChunk < toRead then cb.buffer.take (toRead - firstChunk) else []
    (toRead, out1 ++ out2,
      { cb with readIndex := ((readIdx + toRead) % W) % cb.capacity })

/-- `CircularBuffer::reset()`: both cursors to 0, storage zero-filled. -/
def CircularBuffer.reset (cb : CircularBuffer) : CircularBuffer :=
  { cb with
      writeIndex := 0
      readIndex := 0
      buffer := List.replicate cb.capacity 0 }

/-- `CircularBuffer::availableRead()` as a state transformer: the method is
`const` and performs only atomic loads, so its embedding returns the state
unchanged together with the value. -/
def CircularBuffer.availableReadOp (cb : CircularBuffer) : Nat × CircularBuffer :=
  (cb.availableRead, cb)

/-- `CircularBuffer::availableWrite()` as a state transformer, likewise
effect-free. -/
def CircularBuffer.availableWriteOp (cb : CircularBuffer) : Nat × CircularBuffer :=
  (cb.availableWrite, cb)

/-- States reachable by construction followed by any sequence of `write`,
`read` and `reset` calls (sequential/quiescent execution).  Construction
takes a `size_t` capacity, hence `c < 2 ^ 64`. -/
inductive Reachable : CircularBuffer → Prop where
  | init : ∀ c : Nat, c < W → Reachable (mkBuffer c)
  | write : ∀ {cb : CircularBuffer} (data : List Nat),
      Reachable cb → Reachable (cb.write data).2
  | read : ∀ {cb : CircularBuffer} (size : Nat),
      Reachable cb → Reachable (cb.read size).2.2
  | reset : ∀ {cb : CircularBuffer}, Reachable cb → Reachable cb.reset

/-- The structural well-formedness every reachable state with positive
capacity enjoys: the capacity fits in a `size_t`, both cursors are in
`[0, capacity)`, and the storage has exactly `capacity` bytes. -/
def Inv (cb : CircularBuffer) : Prop :=
  cb.capacity < W ∧ cb.writeIndex < cb.capacity ∧ cb.readIndex < cb.capacity ∧
    cb.buffer.length = cb.capacity

/-! ### Arithmetic helper lemmas -/

theorem W_pos : 0 < W := by norm_num [W]

/-- In range, `size_t` subtraction is ordinary subtraction. -/
theorem sub64_of_le {a b : Nat} (h : b ≤ a) (ha : a < W) : sub64 a b = a - b := by
  unfold sub64
  have h1 : W + a - b = W + (a - b) := by omega
  rw [h1, Nat.add_mod_left]
  exact Nat.mod_eq_of_lt (by omega)

/-- A number in `[c, 2c)` reduces modulo `c` by one subtraction of `c`. -/
theorem mod_eq_sub_of_lt_two_mul {x c : Nat} (h1 : c ≤ x) (h2 : x < 2 * c) :
    x % c = x - c := by
  rw [Nat.mod_eq_sub_mod h1]
  exact Nat.mod_eq_of_lt (by omega)

/-! ### Lemmas about `copyBytes` -/

theorem copyBytes_length (src : List Nat) :
    ∀ buf pos, (copyBytes buf pos src).length = buf.length := by
  induction src with
  | nil => intro buf pos; rfl
  | cons b rest ih =>
    intro buf pos
    rw [copyBytes, ih, List.length_set]

/-- Pointwise characterisation of `copyBytes`: position `i` holds `src[i - pos]`
when `i` lies in the (in-bounds part of the) copied range, and is untouched
otherwise. -/
theorem copyBytes_getElem? (src : List Nat) :
    ∀ (buf : List Nat) (pos i : Nat),
      (copyBytes buf pos src)[i]? =
        if pos ≤ i ∧ i < pos + src.length ∧ i < buf.length then src[i - pos]?
        else buf[i]? := by
  induction src with
  | nil =>
    intro buf pos i
    rw [copyBytes]
    split
    · next h => simp only [List.length_nil] at h; omega
    · rfl
  | cons b rest ih =>
    intro buf pos i
    rw [copyBytes, ih, List.length_set]
    by_cases h1 : pos + 1 ≤ i ∧ i < pos + 1 + rest.length ∧ i < buf.length
    · rw [if_pos h1, if_pos (by simp only [List.length_cons]; omega)]
      have h2 : i - pos = (i - (pos + 1)) + 1 := by omega
      rw [h2, List.getElem?_cons_succ]
    · rw [if_neg h1, List.getElem?_set]
      by_cases h3 : pos = i
      · subst h3
        by_cases h4 : pos < buf.length
        · rw [if_pos rfl, if_pos h4,
            if_pos (by simp only [List.length_cons]; omega)]
          simp only [Nat.sub_self, List.getElem?_cons_zero]
        · rw [if_pos rfl, if_neg h4,
            if_neg (by simp only [List.length_cons]; omega)]
          exact (List.getElem?_eq_none (by omega)).symm
      · rw [if_neg h3,
          if_neg (by simp only [List.length_cons]; omega)]

/-! ### Field-preservation lemmas for the operations -/

theorem write_capacity (cb : CircularBuffer) (data : List Nat) :
    (cb.write data).2.capacity = cb.capacity := by
  simp only [CircularBuffer.write]
  split <;> rfl

theorem write_readIndex (cb : CircularBuffer) (data : List Nat) :
    (cb.write data).2.readIndex = cb.readIndex := by
  simp only [CircularBuffer.write]
  split <;> rfl

theorem read_capacity (cb : CircularBuffer) (size : Nat) :
    (cb.read size).2.2.capacity = cb.capacity := by
  simp only [CircularBuffer.read]
  split <;> rfl

theorem read_writeIndex (cb : CircularBuffer) (size : Nat) :
    (cb.read size).2.2.writeIndex = cb.writeIndex := by
  simp only [CircularBuffer.read]
  split <;> rfl

theorem read_buffer (cb : CircularBuffer) (size : Nat) :
    (cb.read size).2.2.buffer = cb.buffer := by
  simp only [CircularBuffer.read]
  split <;> rfl

theorem reset_capacity (cb : CircularBuffer) : cb.reset.capacity = cb.capacity := rfl

/-! ### Characterisation of the availability computations under the invariant -/

/-- Under the invariant, `availableRead` is ordinary (non-wrapping) arithmetic. -/
theorem availableRead_eq (cb : CircularBuffer) (h : Inv cb) :
    cb.availableRead =
      if cb.readIndex ≤ cb.writeIndex then cb.writeIndex - cb.readIndex
      else cb.capacity - (cb.readIndex - cb.writeIndex) := by
  obtain ⟨hW, hw, hr, hlen⟩ := h
  unfold CircularBuffer.availableRead
  split
  · next hle => exact sub64_of_le hle (by omega)
  · next hgt =>
    rw [sub64_of_le (show cb.writeIndex ≤ cb.readIndex by omega)
        (show cb.readIndex < W by omega),
      sub64_of_le (show cb.readIndex - cb.writeIndex ≤ cb.capacity by omega) hW]

/-- Under the invariant, `availableWrite` is ordinary (non-wrapping) arithmetic. -/
theorem availableWrite_eq (cb : CircularBuffer) (h : Inv cb) :
    cb.availableWrite =
      if cb.readIndex ≤ cb.writeIndex then
        cb.capacity - (cb.writeIndex - cb.readIndex) - 1
      else cb.readIndex - cb.writeIndex - 1 := by
  obtain ⟨hW, hw, hr, hlen⟩ := h
  unfold CircularBuffer.availableWrite
  split
  · next hle =>
    rw [sub64_of_le hle (show cb.writeIndex < W by omega),
      sub64_of_le (show cb.writeIndex - cb.readIndex ≤ cb.capacity by omega) hW,
      sub64_of_le (show 1 ≤ cb.capacity - (cb.writeIndex - cb.readIndex) by omega)
        (by omega)]
  · next hgt =>
    rw [sub64_of_le (show cb.writeIndex ≤ cb.readIndex by omega)
        (show cb.readIndex < W by omega),
      sub64_of_le (show 1 ≤ cb.readIndex - cb.writeIndex by omega) (by omega)]

/-- Occupancy accounting: in every invariant-satisfying state the advertised
read and write capacities exactly partition the `capacity - 1` usable bytes. -/
theorem avail_sum (cb : CircularBuffer) (h : Inv cb) :
    cb.availableRead + cb.availableWrite = cb.capacity - 1 := by
  have h' := h
  obtain ⟨hW, hw, hr, hlen⟩ := h'
  rw [availableRead_eq cb h, availableWrite_eq cb h]
  split <;> omega

/-- The buffer is empty exactly when the cursors coincide. -/
theorem availableRead_eq_zero_iff (cb : CircularBuffer) (h : Inv cb) :
    cb.availableRead = 0 ↔ cb.writeIndex = cb.readIndex := by
  have h' := h
  obtain ⟨hW, hw, hr, hlen⟩ := h'
  rw [availableRead_eq cb h]
  split <;> omega

/-! ### Specification lemmas for `write` -/

/-- The number of bytes a write reports. -/
theorem write_fst (cb : CircularBuffer) (data : List Nat) :
    (cb.write data).1 = min data.length cb.availableWrite := by
  simp only [CircularBuffer.write]
  split
  · next h => exact h.symm
  · rfl

/-- The write cursor after a write. -/
theorem write_writeIndex (cb : CircularBuffer) (data : List Nat) (h : Inv cb) :
    (cb.write data).2.writeIndex =
      ((cb.writeIndex + min data.length cb.availableWrite) % W) % cb.capacity := by
  obtain ⟨hW, hw, hr, hlen⟩ := h
  simp only [CircularBuffer.write]
  split
  · next h0 =>
    rw [h0, Nat.add_zero, Nat.mod_eq_of_lt (show cb.writeIndex < W by omega),
      Nat.mod_eq_of_lt hw]
  · rfl

/-- Bytes written: for each `i` below the transfer count, byte `data[i]` lands
at circular position `writeIndex + i (mod capacity)` of the storage. -/
theorem write_buffer_getElem (cb : CircularBuffer) (data : List Nat) (h : Inv cb)
    {n : Nat} (hn : n = min data.length cb.availableWrite)
    (i : Nat) (hi : i < n) :
    (cb.write data).2.buffer[(cb.writeIndex + i) % cb.capacity]? = data[i]? := by
  obtain ⟨hW, hw, hr, hlen⟩ := h
  have havail : cb.availableWrite ≤ cb.capacity - 1 := by
    have := avail_sum cb ⟨hW, hw, hr, hlen⟩
    omega
  have hnd : n ≤ data.length := by rw [hn]; exact min_le_left _ _
  have hnav : n ≤ cb.availableWrite := by rw [hn]; exact min_le_right _ _
  have hnC : n ≤ cb.capacity - 1 := le_trans hnav havail
  have hsub : sub64 cb.capacity cb.writeIndex = cb.capacity - cb.writeIndex :=
    sub64_of_le (by omega) hW
  simp only [CircularBuffer.write]
  rw [← hn, hsub]
  split
  · next h0 => omega
  · next h0 =>
    split
    · next hfc =>
      -- wrap-around: the first chunk fills positions [writeIndex, capacity),
      -- the second chunk fills positions [0, n - (capacity - writeIndex))
      have hfc' : min n (cb.capacity - cb.writeIndex) = cb.capacity - cb.writeIndex := by
        omega
      rw [hfc'] at hfc ⊢
      have hlen1 : (data.take (cb.capacity - cb.writeIndex)).length
          = cb.capacity - cb.writeIndex := by
        rw [List.length_take]; omega
      have hlen2 : ((data.drop (cb.capacity - cb.writeIndex)).take
            (n - (cb.capacity - cb.writeIndex))).length
          = n - (cb.capacity - cb.writeIndex) := by
        rw [List.length_take, List.length_drop]; omega
      have hilen : (copyBytes cb.buffer cb.writeIndex
            (data.take (cb.capacity - cb.writeIndex))).length = cb.capacity := by
        rw [copyBytes_length, hlen]
      rcases Nat.lt_or_ge i (cb.capacity - cb.writeIndex) with hiw | hiw
      · -- byte i is in the first (tail) chunk
        rw [Nat.mod_eq_of_lt (show cb.writeIndex + i < cb.capacity by omega)]
        rw [copyBytes_getElem?, hlen2, hilen]
        rw [if_neg (by omega)]
        rw [copyBytes_getElem?, hlen1, hlen]
        rw [if_pos (by omega)]
        rw [show cb.writeIndex + i - cb.writeIndex = i by omega]
        rw [List.getElem?_take, if_pos hiw]
      · -- byte i is in the second (head) chunk
        rw [mod_eq_sub_of_lt_two_mul (show cb.capacity ≤ cb.writeIndex + i by omega)
          (show cb.writeIndex + i < 2 * cb.capacity by omega)]
        rw [show cb.writeIndex + i - cb.capacity
            = i - (cb.capacity - cb.writeIndex) by omega]
        rw [copyBytes_getElem?, hlen2, hilen]
        rw [if_pos (by omega)]
        rw [Nat.sub_zero, List.getElem?_take, if_pos (by omega), List.getElem?_drop]
        rw [show cb.capacity - cb.writeIndex + (i - (cb.capacity - cb.writeIndex))
            = i by omega]
    · next hfc =>
      -- no wrap: the whole transfer fits before the end of storage
      have hfc' : min n (cb.capacity - cb.writeIndex) = n := by omega
      rw [hfc'] at hfc ⊢
      have hlen1 : (data.take n).length = n := by rw [List.length_take]; omega
      rw [Nat.mod_eq_of_lt (show cb.writeIndex + i < cb.capacity by omega)]
      rw [copyBytes_getElem?, hlen1, hlen]
      rw [if_pos (by omega)]
      rw [show cb.writeIndex + i - cb.writeIndex = i by omega]
      rw [List.getElem?_take, if_pos hi]

/-- Frame property of `write`: every storage position outside the circularly
written range keeps its previous byte. -/
theorem write_buffer_frame (cb : CircularBuffer) (data : List Nat) (h : Inv cb)
    {n : Nat} (hn : n = min data.length cb.availableWrite)
    (p : Nat) (hp : ∀ i, i < n → (cb.writeIndex + i) % cb.capacity ≠ p) :
    (cb.write data).2.buffer[p]? = cb.buffer[p]? := by
  obtain ⟨hW, hw, hr, hlen⟩ := h
  have havail : cb.availableWrite ≤ cb.capacity - 1 := by
    have := avail_sum cb ⟨hW, hw, hr, hlen⟩
    omega
  have hnd : n ≤ data.length := by rw [hn]; exact min_le_left _ _
  have hnav : n ≤ cb.availableWrite := by rw [hn]; exact min_le_right _ _
  have hnC : n ≤ cb.capacity - 1 := le_trans hnav havail
  have hsub : sub64 cb.capacity cb.writeIndex = cb.capacity - cb.writeIndex :=
    sub64_of_le (by omega) hW
  simp only [CircularBuffer.write]
  rw [← hn, hsub]
  split
  · next h0 => rfl
  · next h0 =>
    split
    · next hfc =>
      have hfc' : min n (cb.capacity - cb.writeIndex) = cb.capacity - cb.writeIndex := by
        omega
      rw [hfc'] at hfc ⊢
      have hlen1 : (data.take (cb.capacity - cb.writeIndex)).length
          = cb.capacity - cb.writeIndex := by
        rw [List.length_take]; omega
      have hlen2 : ((data.drop (cb.capacity - cb.writeIndex)).take
            (n - (cb.capacity - cb.writeIndex))).length
          = n - (cb.capacity - cb.writeIndex) := by
        rw [List.length_take, List.length_drop]; omega
      have hilen : (copyBytes cb.buffer cb.writeIndex
            (data.take (cb.capacity - cb.writeIndex))).length = cb.capacity := by
        rw [copyBytes_length, hlen]
      rw [copyBytes_getElem?, hlen2, hilen]
      rw [if_neg (by
        rintro ⟨-, h2, h3⟩
        refine hp (cb.capacity - cb.writeIndex + p) (by omega) ?_
        rw [show cb.writeIndex + (cb.capacity - cb.writeIndex + p)
            = cb.capacity + p by omega]
        rw [Nat.add_mod_left]
        exact Nat.mod_eq_of_lt h3)]
      rw [copyBytes_getElem?, hlen1, hlen]
      rw [if_neg (by
        rintro ⟨h1, h2, h3⟩
        refine hp (p - cb.writeIndex) (by omega) ?_
        rw [show cb.writeIndex + (p - cb.writeIndex) = p by omega]
        exact Nat.mod_eq_of_lt h3)]
    · next hfc =>
      have hfc' : min n (cb.capacity - cb.writeIndex) = n := by omega
      rw [hfc'] at hfc ⊢
      have hlen1 : (data.take n).length = n := by rw [List.length_take]; omega
      rw [copyBytes_getElem?, hlen1, hlen]
      rw [if_neg (by
        rintro ⟨h1, h2, h3⟩
        refine hp (p - cb.writeIndex) (by omega) ?_
        rw [show cb.writeIndex + (p - cb.writeIndex) = p by omega]
        exact Nat.mod_eq_of_lt h3)]

/-- The storage size is unchanged by `write`: no byte is written outside the
storage region. -/
theorem write_buffer_length (cb : CircularBuffer) (data : List Nat) :
    (cb.write data).2.buffer.length = cb.buffer.length := by
  simp only [CircularBuffer.write]
  split
  · rfl
  · split
    · rw [copyBytes_length, copyBytes_length]
    · rw [copyBytes_length]

/-! ### Specification lemmas for `read` -/

/-- The number of bytes a read reports. -/
theorem read_fst (cb : CircularBuffer) (size : Nat) :
    (cb.read size).1 = min size cb.availableRead := by
  simp only [CircularBuffer.read]
  split
  · next h => exact h.symm
  · rfl

/-- The read cursor after a read. -/
theorem read_readIndex (cb : CircularBuffer) (size : Nat) (h : Inv cb) :
    (cb.read size).2.2.readIndex =
      ((cb.readIndex + min size cb.availableRead) % W) % cb.capacity := by
  obtain ⟨hW, hw, hr, hlen⟩ := h
  simp only [CircularBuffer.read]
  split
  · next h0 =>
    rw [h0, Nat.add_zero, Nat.mod_eq_of_lt (show cb.readIndex < W by omega),
      Nat.mod_eq_of_lt hr]
  · rfl

/-- A read delivers exactly as many bytes as it reports. -/
theorem read_output_length (cb : CircularBuffer) (size : Nat) (h : Inv cb) :
    (cb.read size).2.1.length = min size cb.availableRead := by
  obtain ⟨hW, hw, hr, hlen⟩ := h
  have havail : cb.availableRead ≤ cb.capacity - 1 := by
    have := avail_sum cb ⟨hW, hw, hr, hlen⟩
    omega
  have hsub : sub64 cb.capacity cb.readIndex = cb.capacity - cb.readIndex :=
    sub64_of_le (by omega) hW
  simp only [CircularBuffer.read]
  rw [hsub]
  split
  · next h0 => exact h0.symm
  · next h0 =>
    rw [List.length_append]
    split
    · next hfc =>
      rw [List.length_take, List.length_take, List.length_drop, hlen]
      omega
    · next hfc =>
      rw [List.length_take, List.length_drop, List.length_nil, hlen]
      omega

/-- The bytes a read delivers: entry `j` of the output is the storage byte at
circular position `readIndex + j (mod capacity)`. -/
theorem read_output_getElem (cb : CircularBuffer) (size : Nat) (h : Inv cb)
    {m : Nat} (hm : m = min size cb.availableRead)
    (j : Nat) (hj : j < m) :
    (cb.read size).2.1[j]? = cb.buffer[(cb.readIndex + j) % cb.capacity]? := by
  obtain ⟨hW, hw, hr, hlen⟩ := h
  have havail : cb.availableRead ≤ cb.capacity - 1 := by
    have := avail_sum cb ⟨hW, hw, hr, hlen⟩
    omega
  have hms : m ≤ size := by rw [hm]; exact min_le_left _ _
  have hmav : m ≤ cb.availableRead := by rw [hm]; exact min_le_right _ _
  have hmC : m ≤ cb.capacity - 1 := le_trans hmav havail
  have hsub : sub64 cb.capacity cb.readIndex = cb.capacity - cb.readIndex :=
    sub64_of_le (by omega) hW
  simp only [CircularBuffer.read]
  rw [← hm, hsub]
  split
  · next h0 => omega
  · next h0 =>
    have ho1 : ((cb.buffer.drop cb.readIndex).take
          (min m (cb.capacity - cb.readIndex))).length
        = min m (cb.capacity - cb.readIndex) := by
      rw [List.length_take, List.length_drop, hlen]
      omega
    rcases Nat.lt_or_ge j (min m (cb.capacity - cb.readIndex)) with hjf | hjf
    · -- byte j comes from the first (tail) segment
      rw [List.getElem?_append_left (by rw [ho1]; omega)]
      rw [List.getElem?_take, if_pos hjf, List.getElem?_drop]
      rw [Nat.mod_eq_of_lt (show cb.readIndex + j < cb.capacity by omega)]
    · -- byte j comes from the second (head) segment
      have hfcm : min m (cb.capacity - cb.readIndex) < m := by omega
      have hfc' : min m (cb.capacity - cb.readIndex)
          = cb.capacity - cb.readIndex := by omega
      rw [List.getElem?_append_right (by rw [ho1]; omega), ho1]
      rw [if_pos hfcm]
      rw [List.getElem?_take, if_pos (by omega)]
      rw [mod_eq_sub_of_lt_two_mul (show cb.capacity ≤ cb.readIndex + j by omega)
        (show cb.readIndex + j < 2 * cb.capacity by omega)]
      rw [show cb.readIndex + j - cb.capacity
          = j - (cb.capacity - cb.readIndex) by omega]
      rw [show j - min m (cb.capacity - cb.readIndex)
          = j - (cb.capacity - cb.readIndex) by omega]

/-! ### Early-return, construction and reset lemmas -/

/-- `write` is a no-op returning 0 whenever the computed transfer is 0. -/
theorem write_eq_of_toWrite_zero (cb : CircularBuffer) (data : List Nat)
    (h0 : min data.length cb.availableWrite = 0) : cb.write data = (0, cb) := by
  simp only [CircularBuffer.write]
  rw [if_pos h0]

/-- `read` is a no-op returning 0 bytes whenever the computed transfer is 0. -/
theorem read_eq_of_toRead_zero (cb : CircularBuffer) (size : Nat)
    (h0 : min size cb.availableRead = 0) : cb.read size = (0, [], cb) := by
  simp only [CircularBuffer.read]
  rw [if_pos h0]

/-- A freshly constructed buffer advertises no readable bytes. -/
theorem mkBuffer_availableRead (c : Nat) : (mkBuffer c).availableRead = 0 := by
  simp [mkBuffer, CircularBuffer.availableRead, sub64]

/-- A freshly constructed buffer of positive capacity advertises
`capacity - 1` writable bytes. -/
theorem mkBuffer_availableWrite (c : Nat) (h1 : 1 ≤ c) (h2 : c < W) :
    (mkBuffer c).availableWrite = c - 1 := by
  rw [CircularBuffer.availableWrite]
  simp only [mkBuffer]
  rw [if_pos (le_refl 0)]
  rw [show sub64 0 0 = 0 by simp [sub64], sub64_of_le (Nat.zero_le c) h2,
    Nat.sub_zero, sub64_of_le h1 (by omega)]

/-- `reset` produces exactly the freshly-constructed state. -/
theorem reset_eq_mkBuffer (cb : CircularBuffer) : cb.reset = mkBuffer cb.capacity := rfl

/-- A freshly constructed buffer of positive capacity satisfies the invariant. -/
theorem mkBuffer_inv (c : Nat) (h1 : 1 ≤ c) (h2 : c < W) : Inv (mkBuffer c) :=
  ⟨h2, h1, h1, by simp [mkBuffer]⟩

/-! ### Reachability preserves the invariant -/

theorem reachable_capacity_lt (cb : CircularBuffer) (h : Reachable cb) :
    cb.capacity < W := by
  induction h with
  | init c hc => exact hc
  | write data _ ih => rw [write_capacity]; exact ih
  | read size _ ih => rw [read_capacity]; exact ih
  | reset _ ih => rw [reset_capacity]; exact ih

theorem reachable_inv (cb : CircularBuffer) (h : Reachable cb)
    (hC : 1 ≤ cb.capacity) : Inv cb := by
  induction h with
  | init c hc => exact mkBuffer_inv c (by exact hC) hc
  | write data hR ih =>
    rw [write_capacity] at hC
    have hI := ih hC
    refine ⟨?_, ?_, ?_, ?_⟩
    · rw [write_capacity]; exact hI.1
    · rw [write_writeIndex _ _ hI, write_capacity]
      exact Nat.mod_lt _ (by omega)
    · rw [write_readIndex, write_capacity]; exact hI.2.2.1
    · rw [write_buffer_length, write_capacity]; exact hI.2.2.2
  | read size hR ih =>
    rw [read_capacity] at hC
    have hI := ih hC
    refine ⟨?_, ?_, ?_, ?_⟩
    · rw [read_capacity]; exact hI.1
    · rw [read_writeIndex, read_capacity]; exact hI.2.1
    · rw [read_readIndex _ _ hI, read_capacity]
      exact Nat.mod_lt _ (by omega)
    · rw [read_buffer, read_capacity]; exact hI.2.2.2
  | reset hR ih =>
    rw [reset_capacity] at hC
    have hI := ih hC
    rw [reset_eq_mkBuffer]
    exact mkBuffer_inv _ hC hI.1

/-- With capacity 1 the only reachable state is the initial one. -/
theorem reachable_capacity_one (cb : CircularBuffer) (h : Reachable cb)
    (hC : cb.capacity = 1) : cb = mkBuffer 1 := by
  induction h with
  | init c hc =>
    have : c = 1 := hC
    rw [this]
  | write data hR ih =>
    rw [write_capacity] at hC
    have hcb := ih hC
    rw [hcb, write_eq_of_toWrite_zero _ _
      (by rw [mkBuffer_availableWrite 1 le_rfl (by norm_num [W])]; omega)]
  | read size hR ih =>
    rw [read_capacity] at hC
    have hcb := ih hC
    rw [hcb, read_eq_of_toRead_zero _ _ (by rw [mkBuffer_availableRead]; omega)]
  | reset hR ih =>
    rw [reset_capacity] at hC
    have hcb := ih hC
    rw [hcb]
    rfl

/-- `write` preserves the invariant. -/
theorem write_inv (cb : CircularBuffer) (data : List Nat) (h : Inv cb) :
    Inv (cb.write data).2 := by
  obtain ⟨hW, hw, hr, hlen⟩ := h
  refine ⟨?_, ?_, ?_, ?_⟩
  · rw [write_capacity]; exact hW
  · rw [write_writeIndex _ _ ⟨hW, hw, hr, hlen⟩, write_capacity]
    exact Nat.mod_lt _ (by omega)
  · rw [write_readIndex, write_capacity]; exact hr
  · rw [write_buffer_length, write_capacity]; exact hlen

/-- `read` preserves the invariant. -/
theorem read_inv (cb : CircularBuffer) (size : Nat) (h : Inv cb) :
    Inv (cb.read size).2.2 := by
  obtain ⟨hW, hw, hr, hlen⟩ := h
  refine ⟨?_, ?_, ?_, ?_⟩
  · rw [read_capacity]; exact hW
  · rw [read_writeIndex, read_capacity]; exact hw
  · rw [read_readIndex _ _ ⟨hW, hw, hr, hlen⟩, read_capacity]
    exact Nat.mod_lt _ (by omega)
  · rw [read_buffer, read_capacity]; exact hlen

/-- After writing `n` bytes into an empty buffer the buffer advertises exactly
`n` readable bytes.  The capacity bound `2 ^ 63` keeps the `size_t` cursor
addition `writeIdx + toWrite` from wrapping; it holds for every buffer that
can actually be allocated. -/
theorem availableRead_after_write_of_empty (cb : CircularBuffer) (data : List Nat)
    (h : Inv cb) (hsmall : cb.capacity ≤ 2 ^ 63)
    (hemp : cb.writeIndex = cb.readIndex)
    {n : Nat} (hn : n = min data.length cb.availableWrite) :
    (cb.write data).2.availableRead = n := by
  have hI := h
  obtain ⟨hW, hw, hr, hlen⟩ := h
  have havail : cb.availableWrite ≤ cb.capacity - 1 := by
    have := avail_sum cb hI
    omega
  have hnav : n ≤ cb.availableWrite := by rw [hn]; exact min_le_right _ _
  have hnC : n ≤ cb.capacity - 1 := le_trans hnav havail
  have hWval : W = 18446744073709551616 := by norm_num [W]
  have h63 : (2 : Nat) ^ 63 = 9223372036854775808 := by norm_num
  have hadd : (cb.writeIndex + n) % W = cb.writeIndex + n :=
    Nat.mod_eq_of_lt (by omega)
  have hInv2 := write_inv cb data hI
  rw [availableRead_eq _ hInv2, write_writeIndex _ _ hI, write_readIndex,
    write_capacity, ← hn, hadd]
  rcases Nat.lt_or_ge (cb.writeIndex + n) cb.capacity with hlt | hge
  · rw [Nat.mod_eq_of_lt hlt, if_pos (by omega)]
    omega
  · rw [mod_eq_sub_of_lt_two_mul hge (by omega), if_neg (by omega)]
    omega

/-! ### The claims -/

/-- Claim C5, counterexample.  The claim asserts that a buffer constructed
with capacity 0 reports 0 usable bytes from `availableWrite()`.  In fact the
`size_t` computation `capacity_ - (writeIdx - readIdx) - 1 = 0 - 0 - 1`
underflows, so `availableWrite()` on a freshly constructed capacity-0 buffer
(a reachable state) returns `2 ^ 64 - 1`, not 0. -/
theorem c5_counterexample :
    Reachable (mkBuffer 0) ∧ (mkBuffer 0).availableWrite = 2 ^ 64 - 1 ∧
      (mkBuffer 0).availableWrite ≠ 0 :=
  ⟨Reachable.init 0 (by norm_num [W]), by decide, by decide⟩

/-- Claim C5, amended: for a buffer constructed with capacity 1 the claim
holds — in every reachable state `availableWrite()` is 0, every `write`
returns 0 without modifying any state, and every `read` returns 0 (for
capacity 0 the claim fails; see the counterexample). -/
theorem c5_degenerate_capacity_one (cb : CircularBuffer) (h : Reachable cb)
    (hC : cb.capacity = 1) :
    cb.availableWrite = 0 ∧ (∀ data, cb.write data = (0, cb)) ∧
      (∀ size, cb.read size = (0, [], cb)) := by
  have hcb := reachable_capacity_one cb h hC
  subst hcb
  refine ⟨by rw [mkBuffer_availableWrite 1 le_rfl (by norm_num [W])], ?_, ?_⟩
  · intro data
    exact write_eq_of_toWrite_zero _ _
      (by rw [mkBuffer_availableWrite 1 le_rfl (by norm_num [W])]
          exact Nat.min_zero _)
  · intro size
    exact read_eq_of_toRead_zero _ _
      (by rw [mkBuffer_availableRead]; exact Nat.min_zero _)

/-- Witness for `c5_degenerate_capacity_one` at capacity 1. -/
theorem c5_degenerate_capacity_one_witness :
    (mkBuffer 1).availableWrite = 0 ∧ (mkBuffer 1).write [7] = (0, mkBuffer 1) ∧
      (mkBuffer 1).read 5 = (0, [], mkBuffer 1) :=
  ⟨(c5_degenerate_capacity_one _ (Reachable.init 1 (by norm_num [W])) rfl).1,
   (c5_degenerate_capacity_one _ (Reachable.init 1 (by norm_num [W])) rfl).2.1 [7],
   (c5_degenerate_capacity_one _ (Reachable.init 1 (by norm_num [W])) rfl).2.2 5⟩

/-- Claim C6: with capacity 8, after writing 6 bytes and reading them (both
cursors at 6), writing 5 more bytes copies 2 bytes to offsets 6..7 and
3 bytes to offsets 0..2 (exactly two segments — the definition of `write`
performs at most two copies by construction), returns 5, leaves offsets 3..5
untouched, and a subsequent read of 5 bytes reproduces the 5 bytes in their
original order. -/
theorem c6_wraparound_concrete :
    ((mkBuffer 8).write [1, 2, 3, 4, 5, 6]).2.read 6
      = (6, [1, 2, 3, 4, 5, 6],
          { capacity := 8, buffer := [1, 2, 3, 4, 5, 6, 0, 0],
            writeIndex := 6, readIndex := 6 }) ∧
    ({ capacity := 8, buffer := [1, 2, 3, 4, 5, 6, 0, 0],
       writeIndex := 6, readIndex := 6 } : CircularBuffer).write [10, 11, 12, 13, 14]
      = (5, { capacity := 8, buffer := [12, 13, 14, 4, 5, 6, 10, 11],
              writeIndex := 3, readIndex := 6 }) ∧
    ({ capacity := 8, buffer := [12, 13, 14, 4, 5, 6, 10, 11],
       writeIndex := 3, readIndex := 6 } : CircularBuffer).read 5
      = (5, [10, 11, 12, 13, 14],
          { capacity := 8, buffer := [12, 13, 14, 4, 5, 6, 10, 11],
            writeIndex := 3, readIndex := 3 }) := by
  refine ⟨by decide, by decide, by decide⟩

/-- Claim C7: whenever the computed transfer amount is zero — `read` with
`availableRead() == 0`, or `write` with `availableWrite() == 0` or
`size == 0` — the operation returns 0 and leaves the entire state (cursors
and every storage byte) unchanged. -/
theorem c7_zero_transfer_noop (cb : CircularBuffer) (size : Nat) (data : List Nat) :
    (cb.availableRead = 0 → cb.read size = (0, [], cb)) ∧
    (cb.availableWrite = 0 → cb.write data = (0, cb)) ∧
    (data.length = 0 → cb.write data = (0, cb)) := by
  refine ⟨?_, ?_, ?_⟩
  · intro h
    exact read_eq_of_toRead_zero cb size (by rw [h]; exact Nat.min_zero _)
  · intro h
    exact write_eq_of_toWrite_zero cb data (by rw [h]; exact Nat.min_zero _)
  · intro h
    exact write_eq_of_toWrite_zero cb data (by rw [h]; exact Nat.zero_min _)

/-- Witness for `c7_zero_transfer_noop`: an empty buffer read, a full buffer
write, and a zero-size write, all no-ops. -/
theorem c7_zero_transfer_noop_witness :
    (mkBuffer 4).read 3 = (0, [], mkBuffer 4) ∧
    ({ capacity := 4, buffer := [0, 0, 0, 0], writeIndex := 0,
       readIndex := 1 } : CircularBuffer).write [9, 9]
      = (0, { capacity := 4, buffer := [0, 0, 0, 0], writeIndex := 0,
              readIndex := 1 }) ∧
    (mkBuffer 4).write [] = (0, mkBuffer 4) :=
  ⟨(c7_zero_transfer_noop (mkBuffer 4) 3 []).1 (by decide),
   (c7_zero_transfer_noop _ 0 [9, 9]).2.1 (by decide),
   (c7_zero_transfer_noop (mkBuffer 4) 0 []).2.2 (by decide)⟩

/-- Claim C8: for every capacity C ≥ 2, immediately after construction and
immediately after a quiescent `reset()`, both cursors are 0, every storage
byte is zero, `availableRead() = 0` and `availableWrite() = C - 1`. -/
theorem c8_init_reset (c : Nat) (cb : CircularBuffer) (h2 : 2 ≤ c) (hW : c < W)
    (hcap : cb.capacity = c) :
    ((mkBuffer c).writeIndex = 0 ∧ (mkBuffer c).readIndex = 0 ∧
      (mkBuffer c).buffer = List.replicate c 0 ∧
      (mkBuffer c).availableRead = 0 ∧ (mkBuffer c).availableWrite = c - 1) ∧
    (cb.reset.writeIndex = 0 ∧ cb.reset.readIndex = 0 ∧
      cb.reset.buffer = List.replicate c 0 ∧
      cb.reset.availableRead = 0 ∧ cb.reset.availableWrite = c - 1) := by
  have hreset : cb.reset = mkBuffer c := by rw [reset_eq_mkBuffer, hcap]
  refine ⟨⟨rfl, rfl, rfl, mkBuffer_availableRead c,
    mkBuffer_availableWrite c (by omega) hW⟩, ?_⟩
  rw [hreset]
  exact ⟨rfl, rfl, rfl, mkBuffer_availableRead c,
    mkBuffer_availableWrite c (by omega) hW⟩

/-- Witness for `c8_init_reset` at capacity 8, resetting a dirtied state. -/
theorem c8_init_reset_witness :
    (mkBuffer 8).availableRead = 0 ∧ (mkBuffer 8).availableWrite = 7 ∧
    ({ capacity := 8, buffer := [1, 2, 3, 4, 5, 6, 7, 9], writeIndex := 3,
       readIndex := 5 } : CircularBuffer).reset.buffer = List.replicate 8 0 ∧
    ({ capacity := 8, buffer := [1, 2, 3, 4, 5, 6, 7, 9], writeIndex := 3,
       readIndex := 5 } : CircularBuffer).reset.availableWrite = 7 :=
  ⟨(c8_init_reset 8 ⟨8, [1, 2, 3, 4, 5, 6, 7, 9], 3, 5⟩ (by norm_num)
      (by norm_num [W]) rfl).1.2.2.2.1,
   (c8_init_reset 8 ⟨8, [1, 2, 3, 4, 5, 6, 7, 9], 3, 5⟩ (by norm_num)
      (by norm_num [W]) rfl).1.2.2.2.2,
   (c8_init_reset 8 ⟨8, [1, 2, 3, 4, 5, 6, 7, 9], 3, 5⟩ (by norm_num)
      (by norm_num [W]) rfl).2.2.2.1,
   (c8_init_reset 8 ⟨8, [1, 2, 3, 4, 5, 6, 7, 9], 3, 5⟩ (by norm_num)
      (by norm_num [W]) rfl).2.2.2.2.2⟩

/-- Claim C10: `availableRead()` and `availableWrite()` are pure observers —
the methods are `const` and perform only atomic loads, so each call leaves
both cursors and every storage byte unchanged, and two consecutive calls with
no intervening mutation return equal values. -/
theorem c10_pure_observers (cb : CircularBuffer) :
    cb.availableReadOp.2 = cb ∧ cb.availableWriteOp.2 = cb ∧
    cb.availableReadOp.2.availableReadOp.1 = cb.availableReadOp.1 ∧
    cb.availableWriteOp.2.availableWriteOp.1 = cb.availableWriteOp.1 ∧
    cb.availableReadOp.2.availableWriteOp.1 = cb.availableWriteOp.1 ∧
    cb.availableWriteOp.2.availableReadOp.1 = cb.availableReadOp.1 :=
  ⟨rfl, rfl, rfl, rfl, rfl, rfl⟩

/-- Claim C3: in every state reachable by construction, `write`, `read` and
`reset` with capacity C ≥ 1, both cursors lie in `[0, C)` and the stored-byte
count `(writeCursor - readCursor) mod C` lies in `[0, C - 1]` and never
equals C. -/
theorem c3_cursor_invariant (cb : CircularBuffer) (h : Reachable cb)
    (hC : 1 ≤ cb.capacity) :
    cb.writeIndex < cb.capacity ∧ cb.readIndex < cb.capacity ∧
    0 ≤ ((cb.writeIndex : Int) - cb.readIndex) % (cb.capacity : Int) ∧
    ((cb.writeIndex : Int) - cb.readIndex) % (cb.capacity : Int)
      ≤ (cb.capacity : Int) - 1 ∧
    ((cb.writeIndex : Int) - cb.readIndex) % (cb.capacity : Int)
      ≠ (cb.capacity : Int) := by
  obtain ⟨hW, hw, hr, hlen⟩ := reachable_inv cb h hC
  have hCpos : (0 : Int) < (cb.capacity : Int) := by omega
  have h0 : 0 ≤ ((cb.writeIndex : Int) - cb.readIndex) % (cb.capacity : Int) :=
    Int.emod_nonneg _ (by omega)
  have h1 : ((cb.writeIndex : Int) - cb.readIndex) % (cb.capacity : Int)
      < (cb.capacity : Int) :=
    Int.emod_lt_of_pos _ hCpos
  exact ⟨hw, hr, h0, by omega, by omega⟩

/-- Witness for `c3_cursor_invariant` at the reachable state reached by one
write of one byte into a capacity-4 buffer. -/
theorem c3_cursor_invariant_witness :
    ((mkBuffer 4).write [7]).2.writeIndex < ((mkBuffer 4).write [7]).2.capacity ∧
    ((mkBuffer 4).write [7]).2.readIndex < ((mkBuffer 4).write [7]).2.capacity ∧
    0 ≤ ((((mkBuffer 4).write [7]).2.writeIndex : Int)
        - ((mkBuffer 4).write [7]).2.readIndex)
      % (((mkBuffer 4).write [7]).2.capacity : Int) ∧
    ((((mkBuffer 4).write [7]).2.writeIndex : Int)
        - ((mkBuffer 4).write [7]).2.readIndex)
      % (((mkBuffer 4).write [7]).2.capacity : Int)
      ≤ (((mkBuffer 4).write [7]).2.capacity : Int) - 1 ∧
    ((((mkBuffer 4).write [7]).2.writeIndex : Int)
        - ((mkBuffer 4).write [7]).2.readIndex)
      % (((mkBuffer 4).write [7]).2.capacity : Int)
      ≠ (((mkBuffer 4).write [7]).2.capacity : Int) :=
  c3_cursor_invariant _
    (Reachable.write [7] (Reachable.init 4 (by norm_num [W]))) (by decide)

/-- Claim C4, counterexample.  The claim ranges over every reachable quiescent
state, and a capacity-0 buffer is constructible and reachable; there
`availableWrite()` underflows to `2 ^ 64 - 1`, so it is not
`capacity - 1 - availableRead()` and the two availabilities do not sum to
`capacity - 1`. -/
theorem c4_counterexample :
    Reachable (mkBuffer 0) ∧
    ((mkBuffer 0).availableWrite : Int)
      ≠ ((mkBuffer 0).capacity : Int) - 1 - ((mkBuffer 0).availableRead : Int) ∧
    (mkBuffer 0).availableRead + (mkBuffer 0).availableWrite
      ≠ (mkBuffer 0).capacity - 1 :=
  ⟨Reachable.init 0 (by norm_num [W]), by decide, by decide⟩

/-- Claim C4, amended: in every reachable quiescent state of positive
capacity, `availableRead()` equals `(writeCursor - readCursor) mod capacity`,
`availableWrite()` equals `capacity - 1 - availableRead()`, and the two sum
to `capacity - 1`. -/
theorem c4_available_accounting (cb : CircularBuffer) (h : Reachable cb)
    (hC : 1 ≤ cb.capacity) :
    cb.availableRead
      = (((cb.writeIndex : Int) - cb.readIndex) % (cb.capacity : Int)).toNat ∧
    cb.availableRead + cb.availableWrite = cb.capacity - 1 ∧
    (cb.availableWrite : Int)
      = (cb.capacity : Int) - 1 - (cb.availableRead : Int) := by
  have hI := reachable_inv cb h hC
  have hsum := avail_sum cb hI
  obtain ⟨hW, hw, hr, hlen⟩ := hI
  refine ⟨?_, hsum, by omega⟩
  rw [availableRead_eq cb ⟨hW, hw, hr, hlen⟩]
  split
  · next hle =>
    rw [Int.emod_eq_of_lt (by omega) (by omega)]
    omega
  · next hgt =>
    rw [show (cb.writeIndex : Int) - cb.readIndex
        = ((cb.writeIndex : Int) - cb.readIndex + cb.capacity)
          + (cb.capacity : Int) * (-1) by ring]
    rw [Int.add_mul_emod_self_left]
    rw [Int.emod_eq_of_lt (by omega) (by omega)]
    omega

/-- Witness for `c4_available_accounting` at the reachable state reached by
one write of three bytes into a capacity-8 buffer. -/
theorem c4_available_accounting_witness :
    ((mkBuffer 8).write [1, 2, 3]).2.availableRead
      = (((((mkBuffer 8).write [1, 2, 3]).2.writeIndex : Int)
          - ((mkBuffer 8).write [1, 2, 3]).2.readIndex)
        % (((mkBuffer 8).write [1, 2, 3]).2.capacity : Int)).toNat ∧
    ((mkBuffer 8).write [1, 2, 3]).2.availableRead
        + ((mkBuffer 8).write [1, 2, 3]).2.availableWrite
      = ((mkBuffer 8).write [1, 2, 3]).2.capacity - 1 ∧
    (((mkBuffer 8).write [1, 2, 3]).2.availableWrite : Int)
      = (((mkBuffer 8).write [1, 2, 3]).2.capacity : Int) - 1
        - (((mkBuffer 8).write [1, 2, 3]).2.availableRead : Int) :=
  c4_available_accounting _
    (Reachable.write [1, 2, 3] (Reachable.init 8 (by norm_num [W]))) (by decide)

/-- Claim C2: writing more than `availableWrite()` bytes writes exactly
`availableWrite()` bytes (each landing at its circular position), returns
that count (which is at most the requested size), and never writes any byte
outside the storage region — the storage keeps its size and every position
outside the circularly written range keeps its previous byte. -/
theorem c2_saturation (cb : CircularBuffer) (data : List Nat) (h : Inv cb)
    (hC : 2 ≤ cb.capacity) (hsz : cb.availableWrite < data.length) :
    (cb.write data).1 = cb.availableWrite ∧
    (cb.write data).1 ≤ data.length ∧
    (cb.write data).2.buffer.length = cb.capacity ∧
    (∀ i, i < cb.availableWrite →
      (cb.write data).2.buffer[(cb.writeIndex + i) % cb.capacity]? = data[i]?) ∧
    (∀ p, (∀ i, i < cb.availableWrite → (cb.writeIndex + i) % cb.capacity ≠ p) →
      (cb.write data).2.buffer[p]? = cb.buffer[p]?) := by
  have hmin : min data.length cb.availableWrite = cb.availableWrite :=
    min_eq_right (le_of_lt hsz)
  refine ⟨?_, ?_, ?_, ?_, ?_⟩
  · rw [write_fst, hmin]
  · rw [write_fst, hmin]; exact le_of_lt hsz
  · rw [write_buffer_length, h.2.2.2]
  · intro i hi
    exact write_buffer_getElem cb data h hmin.symm i hi
  · intro p hp
    exact write_buffer_frame cb data h hmin.symm p hp

/-- Witness for `c2_saturation`: writing 5 bytes into an empty capacity-4
buffer (3 usable bytes). -/
theorem c2_saturation_witness :
    ((mkBuffer 4).write [1, 2, 3, 4, 5]).1 = (mkBuffer 4).availableWrite ∧
    ((mkBuffer 4).write [1, 2, 3, 4, 5]).1 ≤ ([1, 2, 3, 4, 5] : List Nat).length ∧
    ((mkBuffer 4).write [1, 2, 3, 4, 5]).2.buffer.length = (mkBuffer 4).capacity ∧
    ((mkBuffer 4).write [1, 2, 3, 4, 5]).2.buffer[((mkBuffer 4).writeIndex + 2)
        % (mkBuffer 4).capacity]? = ([1, 2, 3, 4, 5] : List Nat)[2]? ∧
    ((mkBuffer 4).write [1, 2, 3, 4, 5]).2.buffer[3]? = (mkBuffer 4).buffer[3]? :=
  ⟨(c2_saturation (mkBuffer 4) [1, 2, 3, 4, 5]
      ⟨by decide, by decide, by decide, by decide⟩ (by decide) (by decide)).1,
   (c2_saturation (mkBuffer 4) [1, 2, 3, 4, 5]
      ⟨by decide, by decide, by decide, by decide⟩ (by decide) (by decide)).2.1,
   (c2_saturation (mkBuffer 4) [1, 2, 3, 4, 5]
      ⟨by decide, by decide, by decide, by decide⟩ (by decide) (by decide)).2.2.1,
   (c2_saturation (mkBuffer 4) [1, 2, 3, 4, 5]
      ⟨by decide, by decide, by decide, by decide⟩ (by decide) (by decide)).2.2.2.1
      2 (by decide),
   (c2_saturation (mkBuffer 4) [1, 2, 3, 4, 5]
      ⟨by decide, by decide, by decide, by decide⟩ (by decide) (by decide)).2.2.2.2
      3 (by decide)⟩

/-- Claim C1, counterexample.  The claim quantifies over every buffer (state)
with enough free space, but when the buffer already stores a byte, the
read that follows the write returns the oldest stored byte first (FIFO), not
the freshly written bytes: after writing byte 7 into an empty capacity-4
buffer, writing [1, 2] (2 ≤ availableWrite) and reading 2 bytes yields
[7, 1] ≠ [1, 2]. -/
theorem c1_counterexample :
    2 ≤ ((mkBuffer 4).write [7]).2.capacity ∧
    ([1, 2] : List Nat).length ≤ ((mkBuffer 4).write [7]).2.availableWrite ∧
    ((((mkBuffer 4).write [7]).2.write [1, 2]).2.read 2).1 = 2 ∧
    ((((mkBuffer 4).write [7]).2.write [1, 2]).2.read 2).2.1 = [7, 1] ∧
    ((((mkBuffer 4).write [7]).2.write [1, 2]).2.read 2).2.1 ≠ [1, 2] :=
  ⟨by decide, by decide, by decide, by decide, by decide⟩

/-- Claim C1, amended: for every EMPTY buffer state (availableRead() = 0) with
capacity C where 2 ≤ C ≤ 2^63 (the bound keeps the size_t cursor addition
from wrapping and holds for every allocatable buffer), writing
N ≤ availableWrite() bytes and then immediately reading N bytes returns N
both times and delivers exactly the written bytes, byte-for-byte, in order. -/
theorem c1_roundtrip_empty (cb : CircularBuffer) (data : List Nat) (h : Inv cb)
    (hC : 2 ≤ cb.capacity) (halloc : cb.capacity ≤ 2 ^ 63)
    (hemp : cb.availableRead = 0) (hlen : data.length ≤ cb.availableWrite) :
    (cb.write data).1 = data.length ∧
    ((cb.write data).2.read data.length).1 = data.length ∧
    ((cb.write data).2.read data.length).2.1 = data := by
  have hI := h
  have hemp' : cb.writeIndex = cb.readIndex :=
    (availableRead_eq_zero_iff cb hI).mp hemp
  have hmin : min data.length cb.availableWrite = data.length := min_eq_left hlen
  have hInv2 := write_inv cb data hI
  have hAR : (cb.write data).2.availableRead = data.length :=
    availableRead_after_write_of_empty cb data hI halloc hemp' hmin.symm
  have hmin2 : min data.length (cb.write data).2.availableRead = data.length := by
    rw [hAR, min_self]
  refine ⟨by rw [write_fst, hmin], by rw [read_fst, hmin2], ?_⟩
  apply List.ext_getElem?
  intro k
  rcases Nat.lt_or_ge k data.length with hk | hk
  · rw [read_output_getElem (cb.write data).2 data.length hInv2 hmin2.symm k hk]
    rw [write_readIndex, write_capacity, ← hemp']
    exact write_buffer_getElem cb data hI hmin.symm k hk
  · rw [List.getElem?_eq_none
      (by rw [read_output_length _ _ hInv2, hmin2]; exact hk),
      List.getElem?_eq_none hk]

/-- Witness for `c1_roundtrip_empty`: a 3-byte round trip through an empty
capacity-4 buffer. -/
theorem c1_roundtrip_empty_witness :
    ((mkBuffer 4).write [5, 6, 7]).1 = ([5, 6, 7] : List Nat).length ∧
    (((mkBuffer 4).write [5, 6, 7]).2.read ([5, 6, 7] : List Nat).length).1
      = ([5, 6, 7] : List Nat).length ∧
    (((mkBuffer 4).write [5, 6, 7]).2.read ([5, 6, 7] : List Nat).length).2.1
      = [5, 6, 7] :=
  c1_roundtrip_empty (mkBuffer 4) [5, 6, 7]
    ⟨by decide, by decide, by decide, by decide⟩ (by decide) (by decide)
    (by decide) (by decide)

end MacHRIR
